import Mathlib

/-!
Verification of the Unreal class-information pipeline:
the reference/reverse-reference aggregator (`calculate_references`),
the hierarchy graph builder (`build_hierarchy_graph`), the JSON loading
entry points, and the per-class reflector (`inspect_class_to_json`).

Python dictionaries are embedded as insertion-ordered association lists:
lookup returns the first matching key, assignment updates the first
matching key in place and appends a fresh key at the end.  All class
records are embedded with the full field set of the source's `info`
dictionary.
-/

/-! ## Python-style string-keyed counter dictionaries -/

/-- The value of `d.get(key, 0)` for a Python dict embedded as an
insertion-ordered association list. -/
def dictGetN : List (String × Nat) → String → Nat
  | [], _ => 0
  | (k, v) :: rest, key => if k = key then v else dictGetN rest key

/-- Optional lookup: `d[key]` when present, `none` otherwise. -/
def dictFindN : List (String × Nat) → String → Option Nat
  | [], _ => none
  | (k, v) :: rest, key => if k = key then some v else dictFindN rest key

/-- Python dict assignment `d[key] = v`: replaces the first binding of
`key` in place, appends `(key, v)` when the key is fresh. -/
def dictSetN : List (String × Nat) → String → Nat → List (String × Nat)
  | [], key, v => [(key, v)]
  | (k, w) :: rest, key, v =>
    if k = key then (k, v) :: rest else (k, w) :: dictSetN rest key v

/-- `d[key] = d.get(key, 0) + 1`, the increment idiom used throughout
`calculate_references` and the reflector. -/
def bumpN (d : List (String × Nat)) (key : String) : List (String × Nat) :=
  dictSetN d key (dictGetN d key + 1)

/-! ## ClassRecord data model (all fields of the reflector's `info` dict) -/

/-- One class record of the dataset: the fields produced by
`inspect_class_to_json` and consumed by `calculate_references`. -/
structure ClassInfo where
  name : String
  parent : Option String
  parents : List String
  grand_parent : Option String
  generation : Nat
  editor_properties : List (String × String)
  properties : List String
  methods : List String
  class_methods : List String
  static_methods : List String
  children : List String
  references : List (String × Nat)
  referenced_by : List (String × Nat)
deriving DecidableEq, Repr

/-- A record with every field empty, used to build concrete datasets. -/
def blankInfo (nm : String) : ClassInfo :=
  { name := nm, parent := none, parents := [], grand_parent := none,
    generation := 0, editor_properties := [], properties := [], methods := [],
    class_methods := [], static_methods := [], children := [],
    references := [], referenced_by := [] }

/-- The dataset: the top-level JSON object, a Python dict from class name
to class record, embedded as an insertion-ordered association list. -/
abbrev Dataset := List (String × ClassInfo)

/-- The key list `data.keys()` (also the content of `all_class_names`;
the Python code only tests membership in that set). -/
def datasetKeys (data : Dataset) : List String := data.map Prod.fst

/-- Dataset lookup `data[k]` / `k in data`. -/
def dsFind : Dataset → String → Option ClassInfo
  | [], _ => none
  | (k, ci) :: rest, key => if k = key then some ci else dsFind rest key

/-! ## `calculate_references` (parse_json.py, lines 29-70) -/

/-- Number of editor-property entries of `props` whose declared type is
`t` (types are the second component of each pair). -/
def countType : List (String × String) → String → Nat
  | [], _ => 0
  | pt :: rest, t => (if pt.2 = t then 1 else 0) + countType rest t

/-- First pass of `calculate_references`, restricted to one record:
reset `references` and `referenced_by`, count the parent link when the
parent is truthy (Python `if parent`) and a dataset key, then accumulate
editor-property types that are dataset keys. -/
def resetAndCount (names : List String) (ci : ClassInfo) : ClassInfo :=
  let refs0 : List (String × Nat) := []
  let refs1 := match ci.parent with
    | some p => if p ≠ "" ∧ p ∈ names then bumpN refs0 p else refs0
    | none => refs0
  let refs2 := ci.editor_properties.foldl
    (fun r pt => if pt.2 ∈ names then bumpN r pt.2 else r) refs1
  { ci with references := refs2, referenced_by := [] }

/-- The second-pass iteration events: for each record in dataset order,
one `(referencing class name, declared property type)` pair per
editor-property entry, in entry order. -/
def refByEvents (data : Dataset) : List (String × String) :=
  data.flatMap (fun e => e.2.editor_properties.map (fun pt => (e.1, pt.2)))

/-- One step of the second pass: on event `(src, t)`, when `t` is in
`all_class_names` and is a key of the (evolving) dict, increment
`data[t]['referenced_by'][src]`. -/
def applyEvent (names : List String) (d : Dataset) (ev : String × String) : Dataset :=
  if ev.2 ∈ names ∧ ev.2 ∈ datasetKeys d then
    d.map (fun e =>
      if e.1 = ev.2 then
        (e.1, { e.2 with referenced_by := bumpN e.2.referenced_by ev.1 })
      else e)
  else d

/-- `calculate_references(data)`: guard `if not data`, then the two
passes over the dict. -/
def calculate_references (data : Dataset) : Dataset :=
  if data = [] then data
  else
    (refByEvents (data.map (fun e => (e.1, resetAndCount (datasetKeys data) e.2)))).foldl
      (applyEvent (datasetKeys data))
      (data.map (fun e => (e.1, resetAndCount (datasetKeys data) e.2)))

/-! ## `build_hierarchy_graph` (visualize_hierarchy.py, lines 36-73) -/

/-- A networkx `DiGraph` restricted to what the builder uses: node names
(each carrying its own name as hover title) and directed edges. -/
structure PyDiGraph where
  nodes : List String
  edges : List (String × String)
deriving DecidableEq, Repr

/-- `G.add_node(n)`: idempotent node insertion. -/
def addNode (G : PyDiGraph) (n : String) : PyDiGraph :=
  if n ∈ G.nodes then G else { G with nodes := G.nodes ++ [n] }

/-- `G.add_edge(u, v)`: inserts missing endpoints, then the edge
(idempotently; `DiGraph` has no parallel edges). -/
def addEdge (G : PyDiGraph) (u v : String) : PyDiGraph :=
  if (u, v) ∈ (addNode (addNode G u) v).edges then addNode (addNode G u) v
  else { addNode (addNode G u) v with
           edges := (addNode (addNode G u) v).edges ++ [(u, v)] }

/-- The body of the edge loop of `build_hierarchy_graph`: add the edge
`parent → class_name` when the parent is truthy (Python `if parent`)
and a dataset key. -/
def edgeStep (names : List String) (G : PyDiGraph) (e : String × ClassInfo) : PyDiGraph :=
  match e.2.parent with
  | some p => if p ≠ "" ∧ p ∈ names then addEdge G p e.1 else G
  | none => G

/-- `build_hierarchy_graph(data)`: `None` on an empty (falsy) dict;
otherwise all dataset keys become nodes, and each class with a truthy
parent that is itself a dataset key contributes the edge
`parent → class_name`. -/
def build_hierarchy_graph (data : Dataset) : Option PyDiGraph :=
  if data = [] then none
  else
    some (data.foldl (edgeStep (datasetKeys data))
      ((datasetKeys data).foldl addNode { nodes := [], edges := [] }))

/-! ## Pipeline entry points (visualize_hierarchy.py `__main__`) -/

/-- `parse_unreal_json(json_path)`, with the filesystem (`fs`, mapping a
path to its contents when it is a readable file) and the JSON decoder
(`jsonLoad`, failing exactly on undecodable text) passed explicitly:
`None` when the file is missing, `None` when decoding raises. -/
def parse_unreal_json (jsonLoad : String → Except String Dataset)
    (fs : String → Option String) (path : String) : Option Dataset :=
  match fs path with
  | none => none
  | some content =>
    match jsonLoad content with
    | Except.ok d => some d
    | Except.error _ => none

/-- `visualize_interactive_graph(graph, output_path)` modelled by the
files it writes: nothing for an empty graph, otherwise the output file. -/
def visualize_writes (G : PyDiGraph) (output : String) : List String :=
  if G.nodes = [] then [] else [output]

/-- The `if hierarchy_graph:` guard of `__main__` followed by the
rendering call (a `DiGraph` is falsy exactly when it has no nodes). -/
def graph_stage_writes (g : Option PyDiGraph) (output : String) : List String :=
  match g with
  | none => []
  | some G => if G.nodes = [] then [] else visualize_writes G output

/-- The files written by the visualizer `__main__`: parse, then the
`if unreal_data:` truthiness guard, then graph construction and
rendering. -/
def visualize_main (jsonLoad : String → Except String Dataset)
    (fs : String → Option String) (input output : String) : List String :=
  match parse_unreal_json jsonLoad fs input with
  | none => []
  | some data =>
    if data = [] then []
    else graph_stage_writes (build_hierarchy_graph data) output

/-! ## Docstring mining (get_class_info.py, lines 8-40)

The two regex-based extractors are embedded as explicit scanners with
the same leftmost-match semantics (`re.search` tries successive start
positions; greedy pieces such as `\s*` or `[\w\.]+` are followed by
literal characters outside their class, so backtracking inside them
cannot produce further matches; lazy groups are extended occurrence by
occurrence when their continuation fails).  `\w` is modelled over ASCII
word characters, which covers every type name the module produces. -/

/-- Python `\s` (whitespace class used by the docstring regexes). -/
def pyIsSpace (c : Char) : Bool :=
  c = ' ' || c = '\t' || c = '\n' || c = '\r' || c = '\x0b' || c = '\x0c'

/-- A character of the regex class `[\w\.]`. -/
def isWordDotChar (c : Char) : Bool := c.isAlphanum || c = '_' || c = '.'

/-- Leftmost match of `\(([\w\.]+)\):` — a parenthesized dotted type
name immediately followed by a colon. -/
def findParenType : List Char → Option String
  | [] => none
  | '(' :: rest =>
    let run := rest.takeWhile isWordDotChar
    let after := rest.drop run.length
    if run ≠ [] ∧ after.take 2 = (("):").toList) then some (String.mk run)
    else findParenType rest
  | _ :: rest => findParenType rest

/-- The literal `[Read-Write]` marker of the second property pattern. -/
def rwMarker : List Char := ("[Read-Write]").toList

/-- Leftmost match of `\[Read-Write\]\s*\(([\w\.]+)\)`. -/
def findReadWriteType : List Char → Option String
  | [] => none
  | c :: rest =>
    if (c :: rest).take rwMarker.length = rwMarker then
      match ((c :: rest).drop rwMarker.length).dropWhile (fun a => pyIsSpace a) with
      | '(' :: r =>
        let run := r.takeWhile isWordDotChar
        let after := r.drop run.length
        if run ≠ [] ∧ after.take 1 = [')'] then some (String.mk run)
        else findReadWriteType rest
      | _ => findReadWriteType rest
    else findReadWriteType rest

/-- `get_type_from_docstring(doc)`: `"Unknown"` for an absent or falsy
docstring, else the first `(Type):` token, else the first
`[Read-Write] (Type)` token, else `"Unknown"`. -/
def get_type_from_docstring (doc : Option String) : String :=
  match doc with
  | none => "Unknown"
  | some d =>
    if d = "" then "Unknown"
    else
      match findParenType d.toList with
      | some t => t
      | none =>
        match findReadWriteType d.toList with
        | some t => t
        | none => "Unknown"

/-- Split at the first occurrence of `delim`, returning the text before
it and the text after it. -/
def splitAtSub (delim : List Char) : List Char → Option (List Char × List Char)
  | [] => none
  | c :: rest =>
    if (c :: rest).take delim.length = delim then
      some ([], (c :: rest).drop delim.length)
    else
      match splitAtSub delim rest with
      | some (pre, post) => some (c :: pre, post)
      | none => none

/-- The lazy section capture `(.*?)(?=\n\n|\Z)` under `DOTALL`: all text
up to (excluding) the first blank line, or to the end of the string. -/
def takeUntilBlank : List Char → List Char
  | [] => []
  | '\n' :: '\n' :: _ => []
  | c :: rest => c :: takeUntilBlank rest

/-- Backtracking through the trailing `\s*\n` of the section header:
the greedy run `w` of whitespace must contain a newline; everything up
to and including its last newline is consumed. -/
def afterLastNl (w : List Char) : Option (List Char) :=
  if ('\n') ∈ w then some ((w.reverse.takeWhile (fun c => c ≠ '\n')).reverse) else none

/-- The fixed header phrase of the editor-properties section. -/
def epHeaderChars : List Char := ("**Editor Properties:**").toList

/-- The fixed parenthetical after the header phrase. -/
def epSeeChars : List Char := ("(see get_editor_property/set_editor_property)").toList

/-- Case folding for the `IGNORECASE` section regex. -/
def lcChars (s : List Char) : List Char := s.map Char.toLower

/-- Attempt the section pattern at one start position: the header
phrase, whitespace, the `(see ...)` phrase, whitespace ending in a
newline, then the lazy capture up to the first blank line. -/
def sectionAt (s : List Char) : Option (List Char) :=
  if lcChars (s.take epHeaderChars.length) = lcChars epHeaderChars then
    let a := s.drop epHeaderChars.length
    let b := a.dropWhile (fun c => pyIsSpace c)
    if lcChars (b.take epSeeChars.length) = lcChars epSeeChars then
      let c := b.drop epSeeChars.length
      let w := c.takeWhile (fun x => pyIsSpace x)
      let d := c.drop w.length
      match afterLastNl w with
      | some tail => some (takeUntilBlank (tail ++ d))
      | none => none
    else none
  else none

/-- Leftmost match of the editor-properties section regex. -/
def findSection : List Char → Option (List Char)
  | [] => none
  | c :: rest =>
    match sectionAt (c :: rest) with
    | some cap => some cap
    | none => findSection rest

/-- Python `str.strip()`. -/
def pyStrip (s : List Char) : List Char :=
  ((s.dropWhile (fun c => pyIsSpace c)).reverse.dropWhile (fun c => pyIsSpace c)).reverse

/-- Python `str.split('\n')` (keeps empty pieces). -/
def splitOnNl : List Char → List (List Char)
  | [] => [[]]
  | '\n' :: rest => [] :: splitOnNl rest
  | c :: rest =>
    match splitOnNl rest with
    | l :: ls => (c :: l) :: ls
    | [] => [[c]]

/-- A double backtick, the delimiter around property names. -/
def backq2 : List Char := ("``").toList

/-- The tail of the bullet pattern after its opening double backtick:
lazy name capture up to a double backtick whose continuation
`\s*\((.*?)\):` succeeds, extending the name across further double
backticks when it does not (regex backtracking).  Fuelled by the length
of the scanned text. -/
def tryTail : Nat → List Char → Option (List Char × List Char)
  | 0, _ => none
  | fuel + 1, s =>
    match splitAtSub backq2 s with
    | none => none
    | some (c, after) =>
      let cont :=
        match after.dropWhile (fun x => pyIsSpace x) with
        | '(' :: r =>
          match splitAtSub (("):").toList) r with
          | some (t, _) => some (c, t)
          | none => none
        | _ => none
      match cont with
      | some res => some res
      | none =>
        match tryTail fuel after with
        | some (c2, t) => some (c ++ backq2 ++ c2, t)
        | none => none

/-- Leftmost match of ``-\s*``…``\s*\((.*?)\):`` on one stripped line,
returning the raw name and type captures. -/
def scanPropLine : List Char → Option (List Char × List Char)
  | [] => none
  | '-' :: rest =>
    let t := rest.dropWhile (fun x => pyIsSpace x)
    if t.take 2 = backq2 then
      match tryTail t.length (t.drop 2) with
      | some res => some res
      | none => scanPropLine rest
    else scanPropLine rest
  | _ :: rest => scanPropLine rest

/-- `get_editor_properties_from_docstring(doc)`: locate the section,
split it into lines, collect `(name, type)` bullets in order, keeping
only the first occurrence of each property name. -/
def get_editor_properties_from_docstring (doc : Option String) : List (String × String) :=
  match doc with
  | none => []
  | some d =>
    if d = "" then []
    else
      match findSection d.toList with
      | none => []
      | some cap =>
        (splitOnNl (pyStrip cap)).foldl (fun props line =>
          match scanPropLine (pyStrip line) with
          | some (n, t) =>
            let nm := String.mk (pyStrip n)
            let ty := String.mk (pyStrip t)
            if props.any (fun p => p.1 = nm) then props else props ++ [(nm, ty)]
          | none => props) []

/-! ## The reflector `inspect_class_to_json` (get_class_info.py, 43-170)

A live class object is embedded as the answers the `inspect` module
gives about it.  The three module-level introspection calls inside the
`try` block can each raise, which is modelled by `Except String`; the
`except Exception` handler turns the first raised message into the
minimal `{name, error}` record.  Per-member `inspect.signature`
failures of type `ValueError`/`TypeError` are caught locally and
modelled by `SigResult.caught`. -/

/-- Outcome of `inspect.signature` on a method: parameter and return
annotation names (`none` for missing annotations or annotations without
`__name__`), or a locally-caught failure. -/
inductive SigResult where
  | ok (params : List (Option String)) (ret : Option String)
  | caught
deriving DecidableEq, Repr

/-- One entry of `inspect.classify_class_attrs(cls)`: member name, kind
string, name of the defining class, docstring of the member object, and
its signature (inspected only for plain methods). -/
structure PyAttr where
  name : String
  kind : String
  defining_class : String
  doc : Option String
  signature : SigResult
deriving DecidableEq, Repr

/-- A class object, seen through the introspection calls the reflector
makes on it.  `name` is `cls.__name__`, read before the `try` block. -/
structure PyClass where
  name : String
  getmro : Except String (List String)
  getdoc : Except String (Option String)
  classify_class_attrs : Except String (List PyAttr)

/-- The scan `for i in range(len(mro) - 1, 1, -1)` looking for the
grand-parent index: breaks at the first name that is not `object` or
`_WrapperBase`, or at `_WrapperBase` itself (so in effect at the first
name that is not `object`). -/
def gpScan (mro : List String) : Nat → Option Nat
  | 0 => none
  | 1 => none
  | j + 2 =>
    let nm := mro.getD (j + 2) ""
    if nm ≠ ("object") ∧ nm ≠ ("_WrapperBase") then some (j + 2)
    else if nm = ("_WrapperBase") ∧ j + 2 > 1 then some (j + 2)
    else gpScan mro (j + 1)

/-- The grand-parent heuristic on the full mro (class itself first).
Mro entries are distinct classes carrying names; the identity test
`mro[grand_parent_index] == mro[1]` is embedded as name equality. -/
def grandParentOfMro (mro : List String) : Option String :=
  if mro.length > 2 then
    match gpScan mro (mro.length - 1) with
    | none => none
    | some gpi =>
      if gpi < mro.length - 1 then
        let actual :=
          if mro.getD gpi "" = mro.getD 1 "" then
            if gpi + 1 < mro.length ∧ mro.getD (gpi + 1) "" ≠ ("object") then gpi + 1
            else if gpi > 1 then 2
            else gpi
          else gpi
        if actual < mro.length then some (mro.getD actual "") else none
      else none
  else none

/-- Accumulator of the member-classification loop. -/
structure MemberAcc where
  properties : List String
  class_methods : List String
  static_methods : List String
  methods : List String
  references_count : List (String × Nat)
deriving DecidableEq, Repr

/-- One iteration of the `classify_class_attrs` loop: skip members not
defined on this class and private names other than `__init__`, then
classify by kind, harvesting type references from property docstrings
and from method signature annotations. -/
def processAttr (clsName : String) (acc : MemberAcc) (attr : PyAttr) : MemberAcc :=
  if attr.defining_class ≠ clsName then acc
  else if attr.name.startsWith ("_") ∧ attr.name ≠ ("__init__") then acc
  else if attr.kind = ("property") then
    let acc1 := { acc with properties := acc.properties ++ [attr.name] }
    let member_type_str := get_type_from_docstring attr.doc
    if member_type_str ≠ ("Unknown") then
      { acc1 with references_count := bumpN acc1.references_count member_type_str }
    else acc1
  else if attr.kind = ("class method") then
    { acc with class_methods := acc.class_methods ++ [attr.name] }
  else if attr.kind = ("static method") then
    { acc with static_methods := acc.static_methods ++ [attr.name] }
  else if attr.kind = ("method") then
    let acc1 := { acc with methods := acc.methods ++ [attr.name] }
    match attr.signature with
    | SigResult.caught => acc1
    | SigResult.ok params ret =>
      let acc2 := params.foldl (fun a pa =>
        match pa with
        | some nm => { a with references_count := bumpN a.references_count nm }
        | none => a) acc1
      match ret with
      | some nm => { acc2 with references_count := bumpN acc2.references_count nm }
      | none => acc2
  else acc

/-- The successful body of `inspect_class_to_json`: assemble the full
record from the introspection answers. -/
def buildInfo (nm : String) (mro : List String) (doc : Option String)
    (attrs : List PyAttr) : ClassInfo :=
  let parents := mro.drop 1
  let parent := if mro.length > 1 then some (mro.getD 1 "") else none
  let grand_parent := grandParentOfMro mro
  let editor_properties := get_editor_properties_from_docstring doc
  let acc := attrs.foldl (processAttr nm)
    { properties := [], class_methods := [], static_methods := [], methods := [],
      references_count := [] }
  let refs :=
    match parent with
    | some p => if p ≠ "" then bumpN acc.references_count p else acc.references_count
    | none => acc.references_count
  { name := nm, parent := parent, parents := parents, grand_parent := grand_parent,
    generation := 0, editor_properties := editor_properties,
    properties := acc.properties, methods := acc.methods,
    class_methods := acc.class_methods, static_methods := acc.static_methods,
    children := [], references := refs, referenced_by := [] }

/-- Result of `inspect_class_to_json`: a full record, or the minimal
`{name, error}` record produced by the `except Exception` handler. -/
inductive ClassResult where
  | ok (info : ClassInfo)
  | err (name : String) (error : String)
deriving DecidableEq, Repr

/-- `inspect_class_to_json(cls)`: run the introspection steps in source
order inside the `try`; the first exception is converted into the
minimal error record instead of propagating. -/
def inspect_class_to_json (cls : PyClass) : ClassResult :=
  match cls.getmro with
  | Except.error e => ClassResult.err cls.name e
  | Except.ok mro =>
    match cls.getdoc with
    | Except.error e => ClassResult.err cls.name e
    | Except.ok doc =>
      match cls.classify_class_attrs with
      | Except.error e => ClassResult.err cls.name e
      | Except.ok attrs => ClassResult.ok (buildInfo cls.name mro doc attrs)

/-- The first exception raised while introspecting `cls`, if any. -/
def firstRaise (cls : PyClass) : Option String :=
  match cls.getmro with
  | Except.error e => some e
  | Except.ok _ =>
    match cls.getdoc with
    | Except.error e => some e
    | Except.ok _ =>
      match cls.classify_class_attrs with
      | Except.error e => some e
      | Except.ok _ => none

/-- The `__main__` batch loop of get_class_info.py: every class of the
module is processed and keyed by name, whether its record is full or
degraded. -/
def process_batch (classes : List PyClass) : List (String × ClassResult) :=
  classes.map (fun c => (c.name, inspect_class_to_json c))

/-- Grand-parent field of a reflection result. -/
def resultGrandParent : ClassResult → Option String
  | ClassResult.ok info => info.grand_parent
  | ClassResult.err _ _ => none

/-- A class object whose introspection succeeds with the given answers. -/
def mkReflClass (nm : String) (mro : List String) (doc : Option String)
    (attrs : List PyAttr) : PyClass :=
  { name := nm, getmro := Except.ok mro, getdoc := Except.ok doc,
    classify_class_attrs := Except.ok attrs }

/-- The marker-chain scenario of the spec: ancestor chain
`[Parent, Marker, Base, Root]` with `_WrapperBase` as the marker. -/
def markerChainClass : PyClass :=
  mkReflClass ("Cls") [("Cls"), ("Parent"), ("_WrapperBase"), ("Base"), ("object")] none []

/-! ## Concrete datasets used by the specification's scenarios -/

/-- The end-to-end dataset of the spec: `StructBase`, `Vector`, `Box`. -/
def boxDataset : Dataset :=
  [(("StructBase" : String), blankInfo ("StructBase")),
   (("Vector" : String), { blankInfo ("Vector") with parent := some ("StructBase") }),
   (("Box" : String),
    { blankInfo ("Box") with
        parent := some ("StructBase"),
        editor_properties := [(("min" : String), ("Vector" : String)),
                              (("max" : String), ("Vector" : String))] })]

/-- The graph-shape dataset of the spec: `A ← B ← C` chain. -/
def chainDataset : Dataset :=
  [(("A" : String), blankInfo ("A")),
   (("B" : String), { blankInfo ("B") with parent := some ("A") }),
   (("C" : String), { blankInfo ("C") with parent := some ("B") })]

/-- A dataset whose empty-string key is the parent of `A`: Python's
`if parent` truthiness guard treats the empty string as absent. -/
def emptyKeyParentDataset : Dataset :=
  [(("" : String), blankInfo ("")),
   (("A" : String), { blankInfo ("A") with parent := some ("") })]

/-- Like `emptyKeyParentDataset`, but `A` additionally holds one editor
property whose declared type is the empty-string class. -/
def emptyKeyPropDataset : Dataset :=
  [(("" : String), blankInfo ("")),
   (("A" : String),
    { blankInfo ("A") with
        parent := some (""),
        editor_properties := [(("p" : String), ("" : String))] })]

/-! ## Claim-side measures and proof-side helper definitions -/

/-- Occurrences of a name in a list of names. -/
def countOcc : List String → String → Nat
  | [], _ => 0
  | x :: xs, t => (if x = t then 1 else 0) + countOcc xs t

/-- `r` is the counter dictionary of `g`: a key is present exactly when
its count is positive, bound to that count. -/
def RepCount (r : List (String × Nat)) (g : String → Nat) : Prop :=
  ∀ t, dictFindN r t = if g t = 0 then none else some (g t)

/-- Parent contribution of the first pass: one when the parent is the
looked-up type, truthy, and a dataset key. -/
def parentBonus (names : List String) : Option String → String → Nat
  | some p, t => if p = t ∧ p ≠ "" ∧ p ∈ names then 1 else 0
  | none, _ => 0

/-- Parent contribution as the amended claim words it: one for a truthy
parent equal to the type (key membership checked separately). -/
def truthyParentBonus : Option String → String → Nat
  | some p, t => if p = t ∧ p ≠ "" then 1 else 0
  | none, _ => 0

/-- Parent contribution exactly as the unamended claim words it: one
when `A.parent == T` and `T` is a dataset key (no truthiness proviso). -/
def claimedParentBonus (names : List String) : Option String → String → Nat
  | some p, t => if p = t ∧ t ∈ names then 1 else 0
  | none, _ => 0

/-- Total outgoing reference count the first pass assigns to type `t`
in a record, as computed by the code (dataset-membership guards
included). -/
def outCount (names : List String) (ci : ClassInfo) (t : String) : Nat :=
  parentBonus names ci.parent t +
  (if t ∈ names then countType ci.editor_properties t else 0)

/-- The reference total named by the (amended) outgoing-references
claim: one for a truthy parent equal to `t`, plus the editor-property
occurrences of `t`. -/
def refTotal (ci : ClassInfo) (t : String) : Nat :=
  truthyParentBonus ci.parent t + countType ci.editor_properties t

/-- Editor-property occurrences of type `T` contributed by class `A` of
the dataset (zero when `A` is not a dataset key). -/
def srcCount (D : Dataset) (A T : String) : Nat :=
  match dsFind D A with
  | some ci => countType ci.editor_properties T
  | none => 0

/-- The cumulative effect of the second pass on the record with key
`k`: when `k` is a referenced dataset key, fold the increments of all
its events (in order) into `referenced_by`. -/
def rbPatch (names K : List String) (events : List (String × String))
    (k : String) (ci : ClassInfo) : ClassInfo :=
  if k ∈ names ∧ k ∈ K then
    { ci with referenced_by :=
        (((events.filter (fun ev => ev.2 = k)).map Prod.fst).foldl bumpN ci.referenced_by) }
  else ci

/-- Forget the two aggregator-owned fields; the frame property says
`calculate_references` preserves everything this keeps. -/
def eraseRefs (ci : ClassInfo) : ClassInfo :=
  { ci with references := [], referenced_by := [] }

/-- A filesystem with no readable files. -/
def fsNone : String → Option String := fun _ => none

/-- A filesystem where every path holds undecodable text. -/
def fsBadText : String → Option String := fun _ => some ("not json")

/-- A JSON decoder that fails on every content (as `json.load` does on
the contents of `fsBadText`). -/
def jlFailing : String → Except String Dataset :=
  fun _ => Except.error ("Expecting value: line 1 column 1 (char 0)")

/-- A class object whose mro query raises. -/
def brokenClass : PyClass :=
  { name := "Broken", getmro := Except.error ("boom"),
    getdoc := Except.ok none, classify_class_attrs := Except.ok [] }

/-- The plain three-ancestor scenario of the spec: chain
`[Parent, Mid, Root]` with no marker. -/
def midChainClass : PyClass :=
  mkReflClass ("Cls") [("Cls"), ("Parent"), ("Mid"), ("object")] none []

/-- The outgoing count exactly as the unamended claim words it. -/
def claimedRefTotal (D : Dataset) (ci : ClassInfo) (t : String) : Nat :=
  claimedParentBonus (datasetKeys D) ci.parent t + countType ci.editor_properties t

/-- The graph `build_hierarchy_graph` produces for the `A ← B ← C`
chain dataset. -/
def chainGraph : PyDiGraph :=
  { nodes := [("A"), ("B"), ("C")],
    edges := [(("A" : String), ("B" : String)), (("B" : String), ("C" : String))] }

/-- The record `calculate_references` produces for `Box` in the
end-to-end dataset. -/
def boxCalcBox : ClassInfo :=
  { blankInfo ("Box") with
      parent := some ("StructBase"),
      editor_properties := [(("min" : String), ("Vector" : String)),
                            (("max" : String), ("Vector" : String))],
      references := [(("StructBase" : String), 1), (("Vector" : String), 2)] }

/-- The record `calculate_references` produces for `Vector` in the
end-to-end dataset. -/
def boxCalcVector : ClassInfo :=
  { blankInfo ("Vector") with
      parent := some ("StructBase"),
      references := [(("StructBase" : String), 1)],
      referenced_by := [(("Box" : String), 2)] }

/-! ## Dictionary lemmas -/

theorem dictFindN_dictSetN (d : List (String × Nat)) (k : String) (v : Nat) (t : String) :
    dictFindN (dictSetN d k v) t = if t = k then some v else dictFindN d t := by
  induction d with
  | nil =>
    by_cases h : t = k
    · subst h; simp [dictSetN, dictFindN]
    · simp [dictSetN, dictFindN, h, Ne.symm h]
  | cons e rest ih =>
    obtain ⟨a, b⟩ := e
    by_cases hak : a = k
    · subst hak
      by_cases hta : t = a
      · subst hta; simp [dictSetN, dictFindN]
      · simp [dictSetN, dictFindN, hta, Ne.symm hta]
    · by_cases hat : a = t
      · subst hat
        have htk : ¬ a = k := hak
        simp [dictSetN, dictFindN, hak, htk]
      · simp [dictSetN, dictFindN, hak, hat, ih]

theorem dictGetN_eq_findN (d : List (String × Nat)) (t : String) :
    dictGetN d t = (dictFindN d t).getD 0 := by
  induction d with
  | nil => simp [dictGetN, dictFindN]
  | cons e rest ih =>
    obtain ⟨a, b⟩ := e
    by_cases h : a = t
    · simp [dictGetN, dictFindN, h]
    · simp [dictGetN, dictFindN, h, ih]

theorem repCount_nil : RepCount [] (fun _ => 0) := by
  intro t; simp [dictFindN]

theorem repCount_congr {r : List (String × Nat)} {g g2 : String → Nat}
    (h : RepCount r g) (hg : ∀ t, g t = g2 t) : RepCount r g2 := by
  intro t; rw [← hg t]; exact h t

theorem repCount_getD {r : List (String × Nat)} {g : String → Nat}
    (h : RepCount r g) (t : String) : dictGetN r t = g t := by
  rw [dictGetN_eq_findN, h t]
  by_cases hz : g t = 0
  · simp [hz]
  · simp [hz]

theorem repCount_bumpN {r : List (String × Nat)} {g : String → Nat}
    (h : RepCount r g) (k : String) :
    RepCount (bumpN r k) (fun t => if t = k then g t + 1 else g t) := by
  intro t
  simp only []
  unfold bumpN
  rw [dictFindN_dictSetN]
  by_cases htk : t = k
  · subst htk
    rw [if_pos rfl, if_pos rfl, repCount_getD h t]
    simp
  · rw [if_neg htk, if_neg htk, h t]

theorem repCount_foldBump :
    ∀ (ks : List String) {r : List (String × Nat)} {g : String → Nat}, RepCount r g →
      RepCount (ks.foldl bumpN r) (fun t => g t + countOcc ks t) := by
  intro ks
  induction ks with
  | nil =>
    intro r g h
    exact repCount_congr h (fun t => by simp [countOcc])
  | cons k rest ih =>
    intro r g h
    simp only [List.foldl_cons]
    refine repCount_congr (ih (repCount_bumpN h k)) (fun t => ?_)
    by_cases ht : t = k
    · subst ht; simp [countOcc]; omega
    · simp [countOcc, ht, Ne.symm ht]

theorem repCount_foldProps (names : List String) :
    ∀ (props : List (String × String)) {r : List (String × Nat)} {g : String → Nat},
      RepCount r g →
      RepCount (props.foldl (fun r pt => if pt.2 ∈ names then bumpN r pt.2 else r) r)
        (fun t => g t + (if t ∈ names then countType props t else 0)) := by
  intro props
  induction props with
  | nil =>
    intro r g h
    refine repCount_congr h (fun t => ?_)
    simp [countType]
  | cons pt rest ih =>
    intro r g h
    simp only [List.foldl_cons]
    by_cases hmem : pt.2 ∈ names
    · rw [if_pos hmem]
      refine repCount_congr (ih (repCount_bumpN h pt.2)) (fun t => ?_)
      by_cases ht : t = pt.2
      · subst ht
        simp [countType, hmem]
        omega
      · by_cases htn : t ∈ names
        · simp [countType, ht, Ne.symm ht, htn]
        · simp [countType, ht, Ne.symm ht, htn]
    · rw [if_neg hmem]
      refine repCount_congr (ih h) (fun t => ?_)
      by_cases htn : t ∈ names
      · have hne : ¬ pt.2 = t := fun hh => hmem (hh ▸ htn)
        simp [countType, htn, hne]
      · simp [htn]

/-! ## Dataset lookup and map lemmas -/

theorem datasetKeys_map (f : String × ClassInfo → ClassInfo) (D : Dataset) :
    datasetKeys (D.map (fun e => (e.1, f e))) = datasetKeys D := by
  induction D with
  | nil => rfl
  | cons e rest ih =>
    simp only [List.map_cons, datasetKeys] at ih ⊢
    rw [ih]

theorem dsFind_map (f : String × ClassInfo → ClassInfo) (D : Dataset) (k : String) :
    dsFind (D.map (fun e => (e.1, f e))) k = (dsFind D k).map (fun ci => f (k, ci)) := by
  induction D with
  | nil => rfl
  | cons e rest ih =>
    obtain ⟨a, ci⟩ := e
    by_cases h : a = k
    · subst h; simp [dsFind]
    · simp [dsFind, h, ih]

theorem dsFind_none_of_not_mem (D : Dataset) (k : String) (h : k ∉ datasetKeys D) :
    dsFind D k = none := by
  induction D with
  | nil => rfl
  | cons e rest ih =>
    obtain ⟨a, ci⟩ := e
    simp only [datasetKeys, List.map_cons, List.mem_cons] at h
    push_neg at h
    have hak : ¬ a = k := fun hh => h.1 hh.symm
    simp only [dsFind, if_neg hak]
    exact ih h.2

theorem mem_keys_of_dsFind {D : Dataset} {k : String} {ci : ClassInfo}
    (h : dsFind D k = some ci) : k ∈ datasetKeys D := by
  by_contra hn
  rw [dsFind_none_of_not_mem D k hn] at h
  exact Option.noConfusion h

theorem map_entries_id (D : Dataset) (f : String × ClassInfo → ClassInfo)
    (h : ∀ e ∈ D, f e = e.2) : D.map (fun e => (e.1, f e)) = D := by
  induction D with
  | nil => rfl
  | cons e rest ih =>
    simp only [List.map_cons]
    rw [h e (List.mem_cons_self e rest)]
    rw [ih (fun e' he' => h e' (List.mem_cons_of_mem e he'))]

/-! ## Second-pass characterization -/

theorem applyEvent_eq_map (names : List String) (d : Dataset) (ev : String × String) :
    applyEvent names d ev = d.map (fun e =>
      (e.1, if ev.2 ∈ names ∧ ev.2 ∈ datasetKeys d ∧ e.1 = ev.2
            then { e.2 with referenced_by := bumpN e.2.referenced_by ev.1 } else e.2)) := by
  unfold applyEvent
  by_cases hc : ev.2 ∈ names ∧ ev.2 ∈ datasetKeys d
  · rw [if_pos hc]
    apply List.map_congr_left
    intro e _
    by_cases h1 : e.1 = ev.2
    · rw [if_pos h1, if_pos ⟨hc.1, hc.2, h1⟩]
    · rw [if_neg h1, if_neg (fun hh => h1 hh.2.2)]
  · rw [if_neg hc]
    symm
    apply map_entries_id
    intro e _
    rw [if_neg (fun hh => hc ⟨hh.1, hh.2.1⟩)]

theorem applyEvent_keys (names : List String) (d : Dataset) (ev : String × String) :
    datasetKeys (applyEvent names d ev) = datasetKeys d := by
  rw [applyEvent_eq_map]
  exact datasetKeys_map _ d

theorem rbPatch_cons (names K : List String) (ev : String × String)
    (events : List (String × String)) (k : String) (ci : ClassInfo) :
    rbPatch names K events k
      (if ev.2 ∈ names ∧ ev.2 ∈ K ∧ k = ev.2
       then { ci with referenced_by := bumpN ci.referenced_by ev.1 } else ci)
    = rbPatch names K (ev :: events) k ci := by
  by_cases hin : k ∈ names ∧ k ∈ K
  · by_cases hk : k = ev.2
    · rw [if_pos ⟨hk ▸ hin.1, hk ▸ hin.2, hk⟩]
      unfold rbPatch
      rw [if_pos hin, if_pos hin]
      have hf : (ev :: events).filter (fun e => e.2 = k)
          = ev :: events.filter (fun e => e.2 = k) := by
        simp [List.filter_cons, hk.symm]
      rw [hf]
      rfl
    · rw [if_neg (fun hh => hk hh.2.2)]
      unfold rbPatch
      rw [if_pos hin, if_pos hin]
      have hne : ¬ ev.2 = k := fun hh => hk hh.symm
      have hf : (ev :: events).filter (fun e => e.2 = k)
          = events.filter (fun e => e.2 = k) := by
        simp [List.filter_cons, hne]
      rw [hf]
  · have harg : rbPatch names K (ev :: events) k ci = ci := by
      unfold rbPatch; rw [if_neg hin]
    rw [harg]
    by_cases hk : k = ev.2
    · subst hk
      rw [if_neg (fun hh => hin ⟨hh.1, hh.2.1⟩)]
      unfold rbPatch; rw [if_neg hin]
    · rw [if_neg (fun hh => hk hh.2.2)]
      unfold rbPatch; rw [if_neg hin]

theorem foldl_applyEvent_eq_map (names : List String) :
    ∀ (events : List (String × String)) (D : Dataset),
      events.foldl (applyEvent names) D
        = D.map (fun e => (e.1, rbPatch names (datasetKeys D) events e.1 e.2)) := by
  intro events
  induction events with
  | nil =>
    intro D
    simp only [List.foldl_nil]
    symm
    apply map_entries_id
    intro e _
    unfold rbPatch
    split
    · rfl
    · rfl
  | cons ev rest ih =>
    intro D
    simp only [List.foldl_cons]
    rw [ih (applyEvent names D ev), applyEvent_keys names D ev,
        applyEvent_eq_map names D ev, List.map_map]
    apply List.map_congr_left
    intro e _
    simp only [Function.comp_apply]
    rw [rbPatch_cons]

/-! ## First-pass characterization and frame facts -/

theorem resetAndCount_references (names : List String) (ci : ClassInfo) :
    RepCount (resetAndCount names ci).references (outCount names ci) := by
  have hbase : RepCount
      (match ci.parent with
       | some p => if p ≠ "" ∧ p ∈ names then bumpN [] p else []
       | none => ([] : List (String × Nat)))
      (fun t => parentBonus names ci.parent t) := by
    rcases hp : ci.parent with _ | p
    · simp only [hp, parentBonus]
      exact repCount_nil
    · simp only [hp, parentBonus]
      by_cases hc : p ≠ "" ∧ p ∈ names
      · rw [if_pos hc]
        refine repCount_congr (repCount_bumpN repCount_nil p) (fun t => ?_)
        by_cases ht : t = p
        · subst ht
          rw [if_pos rfl, if_pos ⟨rfl, hc⟩]
        · rw [if_neg ht, if_neg (fun hh => ht hh.1.symm)]
      · rw [if_neg hc]
        refine repCount_congr repCount_nil (fun t => ?_)
        by_cases hpt : p = t
        · rw [if_neg (fun hh => hc ⟨hh.2.1, hh.2.2⟩)]
        · rw [if_neg (fun hh => hpt hh.1)]
  exact repCount_congr (repCount_foldProps names ci.editor_properties hbase) (fun t => rfl)

theorem resetAndCount_parent (names : List String) (ci : ClassInfo) :
    (resetAndCount names ci).parent = ci.parent := rfl

theorem resetAndCount_props (names : List String) (ci : ClassInfo) :
    (resetAndCount names ci).editor_properties = ci.editor_properties := rfl

theorem resetAndCount_referenced_by (names : List String) (ci : ClassInfo) :
    (resetAndCount names ci).referenced_by = [] := rfl

theorem rbPatch_references (names K : List String) (events : List (String × String))
    (k : String) (ci : ClassInfo) :
    (rbPatch names K events k ci).references = ci.references := by
  unfold rbPatch; split
  · rfl
  · rfl

theorem rbPatch_parent (names K : List String) (events : List (String × String))
    (k : String) (ci : ClassInfo) :
    (rbPatch names K events k ci).parent = ci.parent := by
  unfold rbPatch; split
  · rfl
  · rfl

theorem rbPatch_props (names K : List String) (events : List (String × String))
    (k : String) (ci : ClassInfo) :
    (rbPatch names K events k ci).editor_properties = ci.editor_properties := by
  unfold rbPatch; split
  · rfl
  · rfl

theorem rbPatch_referenced_by_pos (names K : List String)
    (events : List (String × String)) (k : String) (ci : ClassInfo)
    (h : k ∈ names ∧ k ∈ K) :
    (rbPatch names K events k ci).referenced_by
      = ((events.filter (fun e => e.2 = k)).map Prod.fst).foldl bumpN ci.referenced_by := by
  unfold rbPatch; rw [if_pos h]

/-! ## `calculate_references` as an entrywise map -/

theorem calc_references_eq_map (D : Dataset) (hD : ¬ D = []) :
    calculate_references D
      = D.map (fun e => (e.1,
          rbPatch (datasetKeys D) (datasetKeys D)
            (refByEvents (D.map (fun e2 => (e2.1, resetAndCount (datasetKeys D) e2.2))))
            e.1 (resetAndCount (datasetKeys D) e.2))) := by
  unfold calculate_references
  rw [if_neg hD]
  rw [foldl_applyEvent_eq_map]
  rw [datasetKeys_map (fun e => resetAndCount (datasetKeys D) e.2) D]
  rw [List.map_map]
  apply List.map_congr_left
  intro e _
  rfl

theorem calc_references_keys (D : Dataset) :
    datasetKeys (calculate_references D) = datasetKeys D := by
  by_cases hD : D = []
  · subst hD; rfl
  · rw [calc_references_eq_map D hD]
    exact datasetKeys_map _ D

theorem calc_references_dsFind (D : Dataset) (hD : ¬ D = []) (k : String) :
    dsFind (calculate_references D) k
      = (dsFind D k).map (fun ci =>
          rbPatch (datasetKeys D) (datasetKeys D)
            (refByEvents (D.map (fun e2 => (e2.1, resetAndCount (datasetKeys D) e2.2))))
            k (resetAndCount (datasetKeys D) ci)) := by
  rw [calc_references_eq_map D hD]
  exact dsFind_map _ D k

/-! ## Event-stream counting lemmas -/

theorem refByEvents_map_reset (names : List String) (D : Dataset) :
    refByEvents (D.map (fun e => (e.1, resetAndCount names e.2))) = refByEvents D := by
  induction D with
  | nil => rfl
  | cons e rest ih =>
    unfold refByEvents at ih ⊢
    simp only [List.map_cons, List.flatMap_cons]
    rw [ih]
    rfl

theorem countOcc_append (a b : List String) (t : String) :
    countOcc (a ++ b) t = countOcc a t + countOcc b t := by
  induction a with
  | nil => simp [countOcc]
  | cons x xs ih => simp [countOcc, ih]; omega

theorem countOcc_replicate (n : Nat) (k t : String) :
    countOcc (List.replicate n k) t = if k = t then n else 0 := by
  induction n with
  | zero => simp [countOcc]
  | succ n ih =>
    rw [List.replicate_succ]
    by_cases h : k = t
    · subst h
      simp [countOcc, ih]
      omega
    · simp [countOcc, ih, h]

theorem head_events_filtered (k : String) (props : List (String × String)) (T : String) :
    ((props.map (fun pt => (k, pt.2))).filter (fun ev => ev.2 = T)).map Prod.fst
      = List.replicate (countType props T) k := by
  induction props with
  | nil => rfl
  | cons pt rest ih =>
    simp only [List.map_cons, List.filter_cons]
    by_cases h : pt.2 = T
    · have hc : countType (pt :: rest) T = countType rest T + 1 := by
        simp [countType, h, Nat.add_comm]
      rw [hc, List.replicate_succ, if_pos (by simp [h]), List.map_cons, ih]
    · have hc : countType (pt :: rest) T = countType rest T := by
        simp [countType, h]
      rw [hc, if_neg (by simp [h]), ih]

theorem srcCount_cons (k : String) (ci : ClassInfo) (rest : Dataset) (A T : String) :
    srcCount ((k, ci) :: rest) A T
      = if k = A then countType ci.editor_properties T else srcCount rest A T := by
  by_cases h : k = A
  · simp [srcCount, dsFind, h]
  · simp [srcCount, dsFind, h]

theorem countOcc_filter_events (D : Dataset) (hnd : (datasetKeys D).Nodup) (A T : String) :
    countOcc (((refByEvents D).filter (fun ev => ev.2 = T)).map Prod.fst) A
      = srcCount D A T := by
  induction D with
  | nil => simp [refByEvents, srcCount, dsFind, countOcc]
  | cons e rest ih =>
    obtain ⟨k, ci⟩ := e
    simp only [datasetKeys, List.map_cons, List.nodup_cons] at hnd
    have htail := ih hnd.2
    unfold refByEvents at htail ⊢
    simp only [List.flatMap_cons]
    rw [List.filter_append, List.map_append, countOcc_append,
        head_events_filtered k ci.editor_properties T, countOcc_replicate, htail,
        srcCount_cons]
    by_cases hkA : k = A
    · subst hkA
      rw [if_pos rfl, if_pos rfl]
      have hnone : dsFind rest k = none := dsFind_none_of_not_mem rest k hnd.1
      simp [srcCount, hnone]
    · rw [if_neg hkA, if_neg hkA]
      simp

/-! ## Entry shape of `calculate_references` results -/

theorem calc_entry_spec (D : Dataset) (A : String) (ci' : ClassInfo)
    (h : dsFind (calculate_references D) A = some ci') :
    ∃ ci, dsFind D A = some ci
      ∧ ci'.references = (resetAndCount (datasetKeys D) ci).references
      ∧ ci'.parent = ci.parent ∧ ci'.editor_properties = ci.editor_properties := by
  have hD : ¬ D = [] := by
    intro hh; subst hh; simp [calculate_references, dsFind] at h
  rw [calc_references_dsFind D hD A] at h
  rcases hfind : dsFind D A with _ | ci
  · rw [hfind] at h; exact absurd h (by simp)
  · rw [hfind] at h
    simp only [Option.map_some', Option.some_inj] at h
    refine ⟨ci, rfl, ?_, ?_, ?_⟩
    · rw [← h, rbPatch_references]
    · rw [← h, rbPatch_parent, resetAndCount_parent]
    · rw [← h, rbPatch_props, resetAndCount_props]

/-! ## Claim C1: outgoing references -/

/-- C1 (amended): after `calculate_references`, each class's
`references` dict contains exactly the dataset keys with a positive
total, the total being one for a truthy (non-empty) parent equal to the
key plus the editor-property occurrences of the key; and the end-to-end
`StructBase`/`Vector`/`Box` scenario produces exactly the maps the
specification lists.  (The original claim, without the non-empty-parent
proviso, fails on an empty-string class name; see the counterexample.) -/
theorem calc_references_outgoing_spec :
    (∀ (D : Dataset) (A : String) (ci' : ClassInfo),
      dsFind (calculate_references D) A = some ci' →
      ∀ T, dictFindN ci'.references T =
        if T ∈ datasetKeys D ∧ 0 < refTotal ci' T then some (refTotal ci' T) else none)
    ∧ (dsFind (calculate_references boxDataset) ("Box")).map ClassInfo.references
        = some [(("StructBase" : String), 1), (("Vector" : String), 2)]
    ∧ (dsFind (calculate_references boxDataset) ("Vector")).map ClassInfo.referenced_by
        = some [(("Box" : String), 2)]
    ∧ (dsFind (calculate_references boxDataset) ("StructBase")).map ClassInfo.referenced_by
        = some [] := by
  refine ⟨?_, by decide, by decide, by decide⟩
  intro D A ci' h T
  obtain ⟨ci, hfind, hrefs, hpar, hprops⟩ := calc_entry_spec D A ci' h
  rw [hrefs]
  rw [resetAndCount_references (datasetKeys D) ci T]
  have hout : outCount (datasetKeys D) ci T
      = if T ∈ datasetKeys D then refTotal ci' T else 0 := by
    unfold outCount refTotal
    rw [hpar, hprops]
    by_cases hT : T ∈ datasetKeys D
    · rw [if_pos hT, if_pos hT]
      congr 1
      rcases hp : ci.parent with _ | p
      · simp [parentBonus, truthyParentBonus]
      · simp only [parentBonus, truthyParentBonus]
        by_cases hcond : p = T ∧ p ≠ ""
        · rw [if_pos ⟨hcond.1, hcond.2, hcond.1 ▸ hT⟩, if_pos hcond]
        · rw [if_neg (fun hh => hcond ⟨hh.1, hh.2.1⟩), if_neg hcond]
    · rw [if_neg hT, if_neg hT]
      rcases hp : ci.parent with _ | p
      · simp [parentBonus]
      · simp only [parentBonus]
        rw [if_neg (fun hh : p = T ∧ p ≠ "" ∧ p ∈ datasetKeys D => hT (hh.1 ▸ hh.2.2))]
  rw [hout]
  by_cases hT : T ∈ datasetKeys D
  · rw [if_pos hT]
    by_cases hz : refTotal ci' T = 0
    · simp [hz, hT]
    · simp [hz, hT, Nat.pos_of_ne_zero hz]
  · simp [hT]

/-- Witness for C1: the general part applied to the end-to-end dataset
at class `Box` and type `Vector` yields the bound count 2. -/
theorem calc_references_outgoing_spec_witness :
    dictFindN boxCalcBox.references ("Vector")
      = if ("Vector" : String) ∈ datasetKeys boxDataset
           ∧ 0 < refTotal boxCalcBox ("Vector")
        then some (refTotal boxCalcBox ("Vector")) else none :=
  calc_references_outgoing_spec.1 boxDataset ("Box") boxCalcBox (by decide) ("Vector")

/-- Counterexample to C1 as stated: in `emptyKeyParentDataset` the class
`A` has parent `""`, which is a dataset key, so the claimed count of
`""` in `references["A"]` is positive — yet the code's truthiness guard
`if parent` skips the empty string and leaves `references["A"]` empty. -/
theorem calc_references_outgoing_cex :
    (dsFind (calculate_references emptyKeyParentDataset) ("A")).map ClassInfo.references
        = some []
    ∧ (dsFind emptyKeyParentDataset ("A")).map ClassInfo.parent = some (some (""))
    ∧ ("" : String) ∈ datasetKeys emptyKeyParentDataset
    ∧ claimedRefTotal emptyKeyParentDataset
        { blankInfo ("A") with parent := some ("") } ("") = 1 := by
  refine ⟨by decide, by decide, by decide, by decide⟩

/-! ## Claim C3: incoming references -/

/-- C3: after `calculate_references`, the `referenced_by` dict of any
dataset class `T` is exactly the editor-property-derived incoming count:
class `A` appears iff it holds at least one editor property of declared
type `T`, bound to the number of such properties; parent links and
method-signature references contribute nothing. -/
theorem calc_references_incoming_spec (D : Dataset)
    (hnd : (datasetKeys D).Nodup) (T : String) (ciT : ClassInfo)
    (hT : dsFind (calculate_references D) T = some ciT) (A : String) :
    dictFindN ciT.referenced_by A =
      if srcCount D A T = 0 then none else some (srcCount D A T) := by
  have hD : ¬ D = [] := by
    intro hh; subst hh; simp [calculate_references, dsFind] at hT
  rw [calc_references_dsFind D hD T] at hT
  rcases hfind : dsFind D T with _ | ci
  · rw [hfind] at hT; exact absurd hT (by simp)
  · rw [hfind] at hT
    simp only [Option.map_some', Option.some_inj] at hT
    have hTmem : T ∈ datasetKeys D := mem_keys_of_dsFind hfind
    rw [← hT]
    rw [rbPatch_referenced_by_pos _ _ _ _ _ ⟨hTmem, hTmem⟩]
    rw [resetAndCount_referenced_by]
    rw [refByEvents_map_reset]
    have hfold := repCount_foldBump
      (((refByEvents D).filter (fun ev => ev.2 = T)).map Prod.fst) repCount_nil A
    simp only [Nat.zero_add] at hfold
    rw [hfold, countOcc_filter_events D hnd A T]

/-- Witness for C3: in the end-to-end dataset, `Vector` is referenced
by `Box` twice. -/
theorem calc_references_incoming_spec_witness :
    (datasetKeys boxDataset).Nodup
    ∧ dictFindN boxCalcVector.referenced_by ("Box")
        = if srcCount boxDataset ("Box") ("Vector") = 0 then none
          else some (srcCount boxDataset ("Box") ("Vector")) :=
  ⟨by decide,
   calc_references_incoming_spec boxDataset (by decide) ("Vector") boxCalcVector
     (by decide) ("Box")⟩

/-! ## Claim C4: conservation law -/

theorem calc_referenced_by_eq (D : Dataset) (hnd : (datasetKeys D).Nodup)
    (T : String) (ciT : ClassInfo)
    (hT : dsFind (calculate_references D) T = some ciT) (A : String) :
    dictFindN ciT.referenced_by A =
      if srcCount D A T = 0 then none else some (srcCount D A T) := by
  have hD : ¬ D = [] := by
    intro hh; subst hh; simp [calculate_references, dsFind] at hT
  rw [calc_references_dsFind D hD T] at hT
  rcases hfind : dsFind D T with _ | ci
  · rw [hfind] at hT; exact absurd hT (by simp)
  · rw [hfind] at hT
    simp only [Option.map_some', Option.some_inj] at hT
    have hTmem : T ∈ datasetKeys D := mem_keys_of_dsFind hfind
    rw [← hT]
    rw [rbPatch_referenced_by_pos _ _ _ _ _ ⟨hTmem, hTmem⟩]
    rw [resetAndCount_referenced_by]
    rw [refByEvents_map_reset]
    have hfold := repCount_foldBump
      (((refByEvents D).filter (fun ev => ev.2 = T)).map Prod.fst) repCount_nil A
    simp only [Nat.zero_add] at hfold
    rw [hfold, countOcc_filter_events D hnd A T]

theorem sum_srcCount (D : Dataset) (hnd : (datasetKeys D).Nodup) (T : String) :
    ((datasetKeys D).map (fun A => srcCount D A T)).sum
      = (D.map (fun e => countType e.2.editor_properties T)).sum := by
  induction D with
  | nil => rfl
  | cons e rest ih =>
    obtain ⟨k, ci⟩ := e
    simp only [datasetKeys, List.map_cons, List.nodup_cons] at hnd ⊢
    simp only [List.sum_cons]
    rw [srcCount_cons, if_pos rfl]
    congr 1
    have hmap : (List.map Prod.fst rest).map (fun A => srcCount ((k, ci) :: rest) A T)
        = (List.map Prod.fst rest).map (fun A => srcCount rest A T) := by
      apply List.map_congr_left
      intro A hA
      rw [srcCount_cons, if_neg (fun hh => hnd.1 (by rw [hh]; exact hA))]
    rw [hmap]
    exact ih hnd.2

theorem intSum_of_natMap (l : List (String × ClassInfo))
    (f : String × ClassInfo → Nat) :
    (l.map (fun e => (f e : Int))).sum = ((l.map f).sum : Int) := by
  induction l with
  | nil => rfl
  | cons e rest ih =>
    simp only [List.map_cons, List.sum_cons, ih]
    push_cast
    ring

theorem parentBonus_eq_truthy (names : List String) (po : Option String)
    (T : String) (hT : T ∈ names) :
    parentBonus names po T = truthyParentBonus po T := by
  rcases po with _ | p
  · rfl
  · simp only [parentBonus, truthyParentBonus]
    by_cases hc : p = T ∧ p ≠ ""
    · rw [if_pos ⟨hc.1, hc.2, hc.1 ▸ hT⟩, if_pos hc]
    · rw [if_neg (fun hh : p = T ∧ p ≠ "" ∧ p ∈ names => hc ⟨hh.1, hh.2.1⟩), if_neg hc]

/-- C4 (amended): after `calculate_references`, for a dataset key `T`
the incoming counts of `referenced_by[T]` summed over all classes equal
the total number of editor-property occurrences of `T` across the
dataset, and this also equals the sum over all classes of
`references[A][T]` minus the contribution of a truthy parent equal to
`T`.  (The original claim, subtracting one whenever `A.parent == T`
without the truthiness proviso, fails on an empty-string class name;
see the counterexample.) -/
theorem calc_references_conservation (D : Dataset)
    (hnd : (datasetKeys D).Nodup) (T : String) (ciT : ClassInfo)
    (hT : dsFind (calculate_references D) T = some ciT) :
    ((datasetKeys D).map (fun A => dictGetN ciT.referenced_by A)).sum
        = (D.map (fun e => countType e.2.editor_properties T)).sum
    ∧ ((calculate_references D).map (fun e =>
          (dictGetN e.2.references T : Int) - truthyParentBonus e.2.parent T)).sum
        = ((D.map (fun e => countType e.2.editor_properties T)).sum : Int) := by
  have hD : ¬ D = [] := by
    intro hh; subst hh; simp [calculate_references, dsFind] at hT
  have hTmem : T ∈ datasetKeys D := by
    have := mem_keys_of_dsFind hT
    rwa [calc_references_keys] at this
  constructor
  · have hgetD : ∀ A, dictGetN ciT.referenced_by A = srcCount D A T := by
      intro A
      rw [dictGetN_eq_findN, calc_referenced_by_eq D hnd T ciT hT A]
      by_cases hz : srcCount D A T = 0
      · simp [hz]
      · simp [hz]
    have hmap : (datasetKeys D).map (fun A => dictGetN ciT.referenced_by A)
        = (datasetKeys D).map (fun A => srcCount D A T) :=
      List.map_congr_left (fun A _ => hgetD A)
    rw [hmap, sum_srcCount D hnd T]
  · rw [calc_references_eq_map D hD, List.map_map]
    have hpt : ∀ e : String × ClassInfo,
        ((fun e => (dictGetN e.2.references T : Int) - truthyParentBonus e.2.parent T) ∘
          (fun e => (e.1,
            rbPatch (datasetKeys D) (datasetKeys D)
              (refByEvents (D.map (fun e2 => (e2.1, resetAndCount (datasetKeys D) e2.2))))
              e.1 (resetAndCount (datasetKeys D) e.2)))) e
        = (countType e.2.editor_properties T : Int) := by
      intro e
      simp only [Function.comp_apply]
      rw [rbPatch_references, rbPatch_parent, resetAndCount_parent]
      rw [repCount_getD (resetAndCount_references (datasetKeys D) e.2) T]
      unfold outCount
      rw [if_pos hTmem, parentBonus_eq_truthy (datasetKeys D) e.2.parent T hTmem]
      push_cast
      ring
    rw [List.map_congr_left (fun e _ => hpt e)]
    exact intSum_of_natMap D (fun e => countType e.2.editor_properties T)

/-- Witness for C4: both conservation identities hold on the
end-to-end dataset at type `Vector`. -/
theorem calc_references_conservation_witness :
    ((datasetKeys boxDataset).map (fun A => dictGetN boxCalcVector.referenced_by A)).sum
        = (boxDataset.map (fun e => countType e.2.editor_properties ("Vector"))).sum :=
  (calc_references_conservation boxDataset (by decide) ("Vector") boxCalcVector
    (by decide)).1

/-- Counterexample to C4 as stated: with an empty-string class that is
the parent of `A` and the declared type of one of `A`'s editor
properties, the incoming sum for `""` is 1, while the claim's
editor-property-derived component (subtracting one whenever
`A.parent == T`) sums to 0 — Python's `if parent` guard never counted
the empty-string parent in `references`. -/
theorem calc_references_conservation_cex :
    (dsFind (calculate_references emptyKeyPropDataset) ("")).map (fun ciT =>
        ((datasetKeys emptyKeyPropDataset).map
          (fun A => dictGetN ciT.referenced_by A)).sum) = some 1
    ∧ ((calculate_references emptyKeyPropDataset).map (fun e =>
          (dictGetN e.2.references ("") : Int)
            - claimedParentBonus (datasetKeys emptyKeyPropDataset) e.2.parent ("") )).sum
        = 0 := by
  refine ⟨by decide, by decide⟩

/-! ## Claim C9: frame property of the aggregator -/

/-- C9: `calculate_references` neither adds nor removes dataset keys
(order included), and rewrites only the `references` and
`referenced_by` fields of each record: after blanking those two fields,
the output dataset is identical to the input dataset. -/
theorem calc_references_frame (D : Dataset) :
    datasetKeys (calculate_references D) = datasetKeys D
    ∧ (calculate_references D).map (fun e => (e.1, eraseRefs e.2))
        = D.map (fun e => (e.1, eraseRefs e.2)) := by
  refine ⟨calc_references_keys D, ?_⟩
  by_cases hD : D = []
  · subst hD; rfl
  · rw [calc_references_eq_map D hD, List.map_map]
    apply List.map_congr_left
    intro e _
    simp only [Function.comp_apply]
    congr 1
    unfold eraseRefs rbPatch
    split
    · rfl
    · rfl

/-! ## Claim C2: idempotence of the aggregator -/

theorem calculate_references_ne_nil (X : Dataset) (h : ¬ X = []) :
    calculate_references X
      = (refByEvents (X.map (fun e => (e.1, resetAndCount (datasetKeys X) e.2)))).foldl
          (applyEvent (datasetKeys X))
          (X.map (fun e => (e.1, resetAndCount (datasetKeys X) e.2))) := by
  unfold calculate_references
  rw [if_neg h]

theorem resetAndCount_rbPatch_reset (names names2 K : List String)
    (evts : List (String × String)) (k : String) (ci : ClassInfo) :
    resetAndCount names (rbPatch names2 K evts k (resetAndCount names ci))
      = resetAndCount names ci := by
  unfold rbPatch
  split
  · rfl
  · rfl

/-- C2: the aggregator is idempotent — running the two passes a second
time on an unchanged dataset resets and recomputes exactly the same
`references`/`referenced_by` maps, so the result is identical. -/
theorem calc_references_idempotent (D : Dataset) :
    calculate_references (calculate_references D) = calculate_references D := by
  by_cases hD : D = []
  · subst hD; rfl
  · have hD' : ¬ calculate_references D = [] := by
      rw [calc_references_eq_map D hD]
      simp [hD]
    have hM2 : (calculate_references D).map
        (fun e => (e.1, resetAndCount (datasetKeys (calculate_references D)) e.2))
        = D.map (fun e => (e.1, resetAndCount (datasetKeys D) e.2)) := by
      rw [calc_references_keys D, calc_references_eq_map D hD, List.map_map]
      apply List.map_congr_left
      intro e _
      simp only [Function.comp_apply]
      congr 1
      exact resetAndCount_rbPatch_reset (datasetKeys D) (datasetKeys D) (datasetKeys D)
        (refByEvents (D.map (fun e2 => (e2.1, resetAndCount (datasetKeys D) e2.2))))
        e.1 e.2
    rw [calculate_references_ne_nil (calculate_references D) hD', hM2,
        calc_references_keys D, ← calculate_references_ne_nil D hD]

/-! ## Graph builder lemmas -/

theorem addNode_nodes_mem (G : PyDiGraph) (n m : String) :
    m ∈ (addNode G n).nodes ↔ m ∈ G.nodes ∨ m = n := by
  unfold addNode
  by_cases h : n ∈ G.nodes
  · rw [if_pos h]
    constructor
    · exact Or.inl
    · rintro (hm | rfl)
      · exact hm
      · exact h
  · rw [if_neg h]
    simp [List.mem_append]

theorem addNode_edges (G : PyDiGraph) (n : String) :
    (addNode G n).edges = G.edges := by
  unfold addNode
  split
  · rfl
  · rfl

theorem addEdge_edges_mem (G : PyDiGraph) (u v : String) (x : String × String) :
    x ∈ (addEdge G u v).edges ↔ x ∈ G.edges ∨ x = (u, v) := by
  simp only [addEdge, addNode_edges]
  by_cases h : (u, v) ∈ G.edges
  · rw [if_pos h, addNode_edges, addNode_edges]
    constructor
    · exact Or.inl
    · rintro (hm | rfl)
      · exact hm
      · exact h
  · rw [if_neg h]
    simp only [List.mem_append, List.mem_singleton, addNode_edges]

theorem addNode_of_mem (G : PyDiGraph) (n : String) (h : n ∈ G.nodes) :
    addNode G n = G := by
  unfold addNode
  rw [if_pos h]

theorem addEdge_nodes_of_mem (G : PyDiGraph) (u v : String)
    (hu : u ∈ G.nodes) (hv : v ∈ G.nodes) : (addEdge G u v).nodes = G.nodes := by
  unfold addEdge
  rw [addNode_of_mem G u hu, addNode_of_mem G v hv]
  split
  · rfl
  · rfl

theorem foldl_addNode_mem (ks : List String) :
    ∀ (G : PyDiGraph) (m : String),
      m ∈ (ks.foldl addNode G).nodes ↔ m ∈ G.nodes ∨ m ∈ ks := by
  induction ks with
  | nil =>
    intro G m
    simp
  | cons k rest ih =>
    intro G m
    simp only [List.foldl_cons]
    rw [ih, addNode_nodes_mem]
    simp [List.mem_cons]
    tauto

theorem foldl_addNode_edges (ks : List String) :
    ∀ (G : PyDiGraph), (ks.foldl addNode G).edges = G.edges := by
  induction ks with
  | nil => intro G; rfl
  | cons k rest ih =>
    intro G
    simp only [List.foldl_cons]
    rw [ih, addNode_edges]

theorem edgeStep_nodes (names : List String) (G : PyDiGraph) (e : String × ClassInfo)
    (he : e.1 ∈ G.nodes) (hnames : ∀ n ∈ names, n ∈ G.nodes) :
    (edgeStep names G e).nodes = G.nodes := by
  rcases hp : e.2.parent with _ | p
  · simp only [edgeStep, hp]
  · simp only [edgeStep, hp]
    by_cases hc : p ≠ "" ∧ p ∈ names
    · rw [if_pos hc]
      exact addEdge_nodes_of_mem G p e.1 (hnames p hc.2) he
    · rw [if_neg hc]

theorem foldl_edgeStep_nodes (names : List String) :
    ∀ (D' : Dataset) (G : PyDiGraph),
      (∀ e ∈ D', e.1 ∈ G.nodes) → (∀ n ∈ names, n ∈ G.nodes) →
      (D'.foldl (edgeStep names) G).nodes = G.nodes := by
  intro D'
  induction D' with
  | nil => intro G _ _; rfl
  | cons e rest ih =>
    intro G hkeys hnames
    simp only [List.foldl_cons]
    have hstep : (edgeStep names G e).nodes = G.nodes :=
      edgeStep_nodes names G e (hkeys e (List.mem_cons_self e rest)) hnames
    rw [ih (edgeStep names G e)
          (fun e' he' => by rw [hstep]; exact hkeys e' (List.mem_cons_of_mem e he'))
          (fun n hn => by rw [hstep]; exact hnames n hn),
        hstep]

theorem edgeStep_edges_mem (names : List String) (G : PyDiGraph)
    (e : String × ClassInfo) (x : String × String) :
    x ∈ (edgeStep names G e).edges
      ↔ x ∈ G.edges
        ∨ (e.2.parent = some x.1 ∧ x.1 ≠ "" ∧ x.1 ∈ names ∧ e.1 = x.2) := by
  obtain ⟨u, v⟩ := x
  rcases hp : e.2.parent with _ | p
  · simp only [edgeStep, hp]
    simp
  · simp only [edgeStep, hp]
    by_cases hc : p ≠ "" ∧ p ∈ names
    · rw [if_pos hc, addEdge_edges_mem]
      constructor
      · rintro (hm | heq)
        · exact Or.inl hm
        · have h1 : u = p := congrArg Prod.fst heq
          have h2 : v = e.1 := congrArg Prod.snd heq
          subst h1
          subst h2
          exact Or.inr ⟨rfl, hc.1, hc.2, rfl⟩
      · rintro (hm | ⟨hpeq, hne, hmem, hsnd⟩)
        · exact Or.inl hm
        · right
          have hpu : p = u := Option.some_inj.mp hpeq
          rw [hpu, ← hsnd]
    · rw [if_neg hc]
      constructor
      · exact Or.inl
      · rintro (hm | ⟨hpeq, hne, hmem, hsnd⟩)
        · exact hm
        · have hpu : p = u := Option.some_inj.mp hpeq
          exact absurd ⟨hpu ▸ hne, hpu ▸ hmem⟩ hc

theorem foldl_edgeStep_edges_mem (names : List String) :
    ∀ (D' : Dataset) (G : PyDiGraph) (x : String × String),
      x ∈ (D'.foldl (edgeStep names) G).edges
        ↔ x ∈ G.edges
          ∨ ∃ e ∈ D', e.2.parent = some x.1 ∧ x.1 ≠ "" ∧ x.1 ∈ names ∧ e.1 = x.2 := by
  intro D'
  induction D' with
  | nil => intro G x; simp
  | cons e rest ih =>
    intro G x
    simp only [List.foldl_cons]
    rw [ih, edgeStep_edges_mem]
    constructor
    · rintro ((hm | hstep) | ⟨e', he', h'⟩)
      · exact Or.inl hm
      · exact Or.inr ⟨e, List.mem_cons_self e rest, hstep⟩
      · exact Or.inr ⟨e', List.mem_cons_of_mem e he', h'⟩
    · rintro (hm | ⟨e', he', h'⟩)
      · exact Or.inl (Or.inl hm)
      · rcases List.mem_cons.mp he' with rfl | hmem
        · exact Or.inl (Or.inr h')
        · exact Or.inr ⟨e', hmem, h'⟩

theorem exists_entry_iff_dsFind (D : Dataset) (hnd : (datasetKeys D).Nodup)
    (c : String) (P : ClassInfo → Prop) :
    (∃ e ∈ D, e.1 = c ∧ P e.2) ↔ (∃ ci, dsFind D c = some ci ∧ P ci) := by
  induction D with
  | nil => simp [dsFind]
  | cons e rest ih =>
    obtain ⟨k, ci⟩ := e
    simp only [datasetKeys, List.map_cons, List.nodup_cons] at hnd
    by_cases hk : k = c
    · subst hk
      have hfind : dsFind ((k, ci) :: rest) k = some ci := by simp [dsFind]
      rw [hfind]
      constructor
      · rintro ⟨e', he', h1, h2⟩
        rcases List.mem_cons.mp he' with rfl | hmem
        · exact ⟨ci, rfl, h2⟩
        · exact absurd (h1 ▸ List.mem_map_of_mem Prod.fst hmem) hnd.1
      · rintro ⟨ci', hci', hP⟩
        refine ⟨(k, ci), List.mem_cons_self _ _, rfl, ?_⟩
        rwa [Option.some_inj.mp hci']
    · simp only [dsFind, if_neg hk]
      rw [← ih hnd.2]
      constructor
      · rintro ⟨e', he', h1, h2⟩
        rcases List.mem_cons.mp he' with rfl | hmem
        · exact absurd h1 hk
        · exact ⟨e', hmem, h1, h2⟩
      · rintro ⟨e', he', h1, h2⟩
        exact ⟨e', List.mem_cons_of_mem _ he', h1, h2⟩

/-! ## Claim C5: hierarchy graph shape -/

/-- C5 (amended): for a (dict-keyed, hence nodup) dataset,
`build_hierarchy_graph` returns a graph whose node set is exactly the
dataset keys, and whose edges are exactly the pairs `(p, c)` where `c`
is a dataset key whose record's parent is the truthy (non-empty) name
`p`, itself a dataset key; in the `A ← B ← C` chain the edges are
exactly `A→B` and `B→C`, and `A` has no incoming edge.  (The original
claim, without the truthiness proviso on the parent, fails on an
empty-string class name; see the counterexample.) -/
theorem build_hierarchy_graph_spec :
    (∀ (D : Dataset), (datasetKeys D).Nodup →
      ∀ G, build_hierarchy_graph D = some G →
        (∀ n, n ∈ G.nodes ↔ n ∈ datasetKeys D)
        ∧ (∀ p c, (p, c) ∈ G.edges
            ↔ p ≠ "" ∧ p ∈ datasetKeys D
              ∧ ∃ ci, dsFind D c = some ci ∧ ci.parent = some p))
    ∧ (build_hierarchy_graph chainDataset).map PyDiGraph.edges
        = some [(("A" : String), ("B" : String)), (("B" : String), ("C" : String))]
    ∧ (∀ p G, build_hierarchy_graph chainDataset = some G
        → (p, ("A" : String)) ∉ G.edges) := by
  refine ⟨?_, by decide, ?_⟩
  · intro D hnd G hG
    have hD : ¬ D = [] := by
      intro hh; subst hh; simp [build_hierarchy_graph] at hG
    unfold build_hierarchy_graph at hG
    rw [if_neg hD, Option.some_inj] at hG
    have hG0nodes : ∀ m, m ∈ ((datasetKeys D).foldl addNode
        { nodes := [], edges := [] }).nodes ↔ m ∈ datasetKeys D := by
      intro m
      rw [foldl_addNode_mem]
      simp
    constructor
    · intro n
      rw [← hG, foldl_edgeStep_nodes (datasetKeys D) D
            ((datasetKeys D).foldl addNode { nodes := [], edges := [] })
            (fun e he => (hG0nodes e.1).mpr (List.mem_map_of_mem Prod.fst he))
            (fun n hn => (hG0nodes n).mpr hn)]
      exact hG0nodes n
    · intro p c
      rw [← hG, foldl_edgeStep_edges_mem, foldl_addNode_edges]
      simp only [List.not_mem_nil, false_or]
      constructor
      · rintro ⟨e, he, hpeq, hne, hmem, hsnd⟩
        refine ⟨hne, hmem, ?_⟩
        rw [← exists_entry_iff_dsFind D hnd c (fun ci => ci.parent = some p)]
        exact ⟨e, he, hsnd, hpeq⟩
      · rintro ⟨hne, hmem, hex⟩
        rw [← exists_entry_iff_dsFind D hnd c (fun ci => ci.parent = some p)] at hex
        obtain ⟨e, he, h1, h2⟩ := hex
        exact ⟨e, he, h2, hne, hmem, h1⟩
  · intro p G hG
    have h2 : build_hierarchy_graph chainDataset = some chainGraph := by decide
    rw [h2, Option.some_inj] at hG
    intro hmem
    rw [← hG] at hmem
    simp only [chainGraph, List.mem_cons, List.not_mem_nil, or_false,
      Prod.mk.injEq] at hmem
    rcases hmem with ⟨_, h⟩ | ⟨_, h⟩
    · exact absurd h (by decide)
    · exact absurd h (by decide)

/-- Witness for C5: the general part applied to the chain dataset and
its concrete graph. -/
theorem build_hierarchy_graph_spec_witness :
    (datasetKeys chainDataset).Nodup
    ∧ (∀ n, n ∈ chainGraph.nodes ↔ n ∈ datasetKeys chainDataset)
    ∧ (∀ p c, (p, c) ∈ chainGraph.edges
        ↔ p ≠ "" ∧ p ∈ datasetKeys chainDataset
          ∧ ∃ ci, dsFind chainDataset c = some ci ∧ ci.parent = some p) :=
  ⟨by decide,
   (build_hierarchy_graph_spec.1 chainDataset (by decide) chainGraph (by decide)).1,
   (build_hierarchy_graph_spec.1 chainDataset (by decide) chainGraph (by decide)).2⟩

/-- Counterexample to C5 as stated: `A`'s parent is the empty-string
class name, which is a dataset key, so the claimed edge set contains
`("", "A")` — but the code's `if parent` truthiness guard drops it and
the built graph has no edges. -/
theorem build_hierarchy_graph_cex :
    (build_hierarchy_graph emptyKeyParentDataset).map PyDiGraph.edges = some []
    ∧ (dsFind emptyKeyParentDataset ("A")).map ClassInfo.parent = some (some (""))
    ∧ ("" : String) ∈ datasetKeys emptyKeyParentDataset := by
  refine ⟨by decide, by decide, by decide⟩

/-! ## Claim C10: empty dataset at the graph builder -/

/-- C10: on the empty dataset `build_hierarchy_graph` returns the
`None` sentinel rather than an empty zero-node graph — it yields a
graph exactly for non-empty datasets — and the `if hierarchy_graph:`
stage then writes nothing. -/
theorem build_hierarchy_graph_empty :
    build_hierarchy_graph ([] : Dataset) = none
    ∧ graph_stage_writes (build_hierarchy_graph ([] : Dataset)) ("out.html") = []
    ∧ ∀ D : Dataset, (build_hierarchy_graph D).isNone = D.isEmpty := by
  refine ⟨rfl, rfl, ?_⟩
  intro D
  cases D with
  | nil => rfl
  | cons e rest =>
    unfold build_hierarchy_graph
    rw [if_neg (by simp)]
    rfl

/-! ## Claim C8: missing or undecodable input -/

/-- C8: with the filesystem and JSON decoder passed explicitly, a
missing input path or an input whose contents fail to decode makes
`parse_unreal_json` return the `None` sentinel (no exception escapes,
the function is total), and the visualizer `__main__` then writes no
output file. -/
theorem parse_unreal_json_error_handling :
    ∀ (jsonLoad : String → Except String Dataset) (fs : String → Option String)
      (input output : String),
      (fs input = none →
        parse_unreal_json jsonLoad fs input = none
        ∧ visualize_main jsonLoad fs input output = [])
      ∧ (∀ content e, fs input = some content → jsonLoad content = Except.error e →
          parse_unreal_json jsonLoad fs input = none
          ∧ visualize_main jsonLoad fs input output = []) := by
  intro jsonLoad fs input output
  constructor
  · intro h
    have hp : parse_unreal_json jsonLoad fs input = none := by
      unfold parse_unreal_json
      rw [h]
    refine ⟨hp, ?_⟩
    unfold visualize_main
    rw [hp]
  · intro content e hfs herr
    have hp : parse_unreal_json jsonLoad fs input = none := by
      unfold parse_unreal_json
      rw [hfs]
      show (match jsonLoad content with
            | Except.ok d => some d
            | Except.error _ => none) = none
      rw [herr]
    refine ⟨hp, ?_⟩
    unfold visualize_main
    rw [hp]

/-- Witness for C8: a filesystem with no files, and one whose file
holds undecodable text, both yield the sentinel and no writes. -/
theorem parse_unreal_json_error_handling_witness :
    (parse_unreal_json jlFailing fsNone ("missing.json") = none
      ∧ visualize_main jlFailing fsNone ("missing.json") ("out.html") = [])
    ∧ (parse_unreal_json jlFailing fsBadText ("bad.json") = none
      ∧ visualize_main jlFailing fsBadText ("bad.json") ("out.html") = []) :=
  ⟨(parse_unreal_json_error_handling jlFailing fsNone ("missing.json") ("out.html")).1 rfl,
   (parse_unreal_json_error_handling jlFailing fsBadText ("bad.json") ("out.html")).2
     ("not json") ("Expecting value: line 1 column 1 (char 0)") rfl rfl⟩

/-! ## Claim C7: per-class failure containment -/

/-- C7: any exception raised while introspecting one class is caught
and converted into the minimal `{name, error}` record carrying exactly
that class's name and the raised message — it never propagates — while
a class whose introspection raises nothing yields a full record; the
batch loop therefore produces one result per class regardless of
individual failures. -/
theorem inspect_class_failure_containment :
    ∀ (cls : PyClass) (classes : List PyClass),
      (∀ e, firstRaise cls = some e →
        inspect_class_to_json cls = ClassResult.err cls.name e)
      ∧ (firstRaise cls = none →
          ∃ info, inspect_class_to_json cls = ClassResult.ok info ∧ info.name = cls.name)
      ∧ (process_batch classes).map Prod.fst = classes.map PyClass.name := by
  intro cls classes
  refine ⟨?_, ?_, ?_⟩
  · intro e he
    obtain ⟨nm, mroE, docE, attrsE⟩ := cls
    rcases mroE with e1 | mro
    · simp only [firstRaise] at he
      rw [← Option.some_inj.mp he]
      rfl
    · rcases docE with e2 | doc
      · simp only [firstRaise] at he
        rw [← Option.some_inj.mp he]
        rfl
      · rcases attrsE with e3 | attrs
        · simp only [firstRaise] at he
          rw [← Option.some_inj.mp he]
          rfl
        · simp only [firstRaise] at he
          exact absurd he (by simp)
  · intro hnone
    obtain ⟨nm, mroE, docE, attrsE⟩ := cls
    rcases mroE with e1 | mro
    · simp [firstRaise] at hnone
    · rcases docE with e2 | doc
      · simp [firstRaise] at hnone
      · rcases attrsE with e3 | attrs
        · simp [firstRaise] at hnone
        · exact ⟨buildInfo nm mro doc attrs, rfl, rfl⟩
  · unfold process_batch
    rw [List.map_map]
    rfl

/-- Witness for C7: a class whose ancestor query raises `boom` yields
the minimal error record, and a batch containing it still produces one
entry per class. -/
theorem inspect_class_failure_containment_witness :
    inspect_class_to_json brokenClass = ClassResult.err ("Broken") ("boom")
    ∧ (process_batch [brokenClass, markerChainClass]).map Prod.fst
        = [brokenClass, markerChainClass].map PyClass.name :=
  ⟨(inspect_class_failure_containment brokenClass []).1 ("boom") rfl,
   (inspect_class_failure_containment brokenClass [brokenClass, markerChainClass]).2.2⟩

/-! ## Claim C6: the grand-parent heuristic -/

/-- C6 (amended): for a class whose ancestor chain (nearest-first) is
`[Parent, Marker, Base, Root]` with `_WrapperBase` the designated
common-base marker and the universal root `object` last, the Reflector
sets `grand_parent == "Base"` — the farthest ancestor that is not the
root, not the marker (the scan from the far end breaks at the first
name that is not `object`, whether or not it is the marker); for a
chain `[Parent, Mid, Root]` with no marker, `grand_parent == "Mid"`
(second-to-last, not equal to the parent). -/
theorem grand_parent_heuristic_spec :
    ∀ (c p b m : String) (doc : Option String) (attrs : List PyAttr),
      b ≠ ("object") → b ≠ p → m ≠ ("object") → m ≠ p →
      resultGrandParent (inspect_class_to_json
          (mkReflClass c [c, p, ("_WrapperBase"), b, ("object")] doc attrs)) = some b
      ∧ resultGrandParent (inspect_class_to_json
          (mkReflClass c [c, p, m, ("object")] doc attrs)) = some m
      ∧ some m ≠ some p := by
  intro c p b m doc attrs hb hbp hm hmp
  refine ⟨?_, ?_, by simpa using hmp⟩
  · show grandParentOfMro [c, p, ("_WrapperBase"), b, ("object")] = some b
    have hscan : gpScan [c, p, ("_WrapperBase" : String), b, ("object")] 4 = some 3 := by
      by_cases hbw : b = ("_WrapperBase")
      · simp [gpScan, List.getD, hbw]
      · simp [gpScan, List.getD, hb, hbw]
    simp [grandParentOfMro, hscan, List.getD, hbp]
  · show grandParentOfMro [c, p, m, ("object")] = some m
    have hscan : gpScan [c, p, m, ("object" : String)] 3 = some 2 := by
      by_cases hmw : m = ("_WrapperBase")
      · simp [gpScan, List.getD, hmw]
      · simp [gpScan, List.getD, hm, hmw]
    simp [grandParentOfMro, hscan, List.getD, hmp]

/-- Witness for C6: the marker chain yields `Base`, the plain chain
yields `Mid`. -/
theorem grand_parent_heuristic_spec_witness :
    resultGrandParent (inspect_class_to_json markerChainClass) = some ("Base")
    ∧ resultGrandParent (inspect_class_to_json midChainClass) = some ("Mid")
    ∧ some ("Mid") ≠ some ("Parent" : String) :=
  grand_parent_heuristic_spec ("Cls") ("Parent") ("Base") ("Mid") none []
    (by decide) (by decide) (by decide) (by decide)

/-- Counterexample to C6 as stated: on the chain
`[Parent, _WrapperBase, Base, object]` the Reflector's scan stops at
`Base`, the first non-`object` name from the far end, so the marker
`_WrapperBase` is not selected. -/
theorem grand_parent_heuristic_cex :
    resultGrandParent (inspect_class_to_json markerChainClass) = some ("Base")
    ∧ some ("Base") ≠ some ("_WrapperBase" : String) := by
  refine ⟨by decide, by decide⟩
